import Mathlib

/-!
Verification of the session-trace log-replay and indexing engine.

The definitions below are shallow embeddings of the TypeScript sources:
  * `src/jsonlReader.ts` — operation-log replay (`readFullSession`,
    `applyMutation`, `traversePath`, `unwrapOperationLog`);
  * `src/indexer.ts` — incremental staleness classification (`doReindex`),
    per-session transactional writes (`indexSession`), reindex coalescing;
  * `src/database.ts` — the SQLite-backed store (`upsertSession`,
    `listSessions`, `upsertTurn`, `deleteTurnsForSession`,
    `deleteSessionsByFilePath`, `search`, `queryReadOnly`);
  * `src/utils.ts` — response-part extraction (`extractResponseParts`).

JSON documents are modelled by the inductive `JVal`; JavaScript-specific
behaviours (truthiness, `String(...)` coercion, property access on objects
and arrays, `Array.prototype.splice`) are modelled by explicit helper
functions, each documented at its definition.
-/

namespace SessionTrace

/-- JSON values, the universe over which the operation log acts.
JavaScript numbers are modelled as integers (the mutation paths and the
metadata fields compared by the code are integral). -/
inductive JVal where
  | null
  | bool (b : Bool)
  | num (n : Int)
  | str (s : String)
  | arr (elems : List JVal)
  | obj (fields : List (String × JVal))
deriving Repr

/-- A single step of an `ObjectPath` (`(string | number)[]` in the source). -/
inductive JKey where
  | str (s : String)
  | num (n : Int)
deriving Repr, DecidableEq

/-- Models `typeof x === 'object' && x !== null` — true for JSON objects and arrays. -/
def isObjLike : JVal → Bool
  | .obj _ => true
  | .arr _ => true
  | _ => false

/-- First-match association lookup on an object's field list.  `JSON.parse`
produces objects with pairwise distinct keys, so first-match agrees with
JavaScript property lookup on every value the reader ever sees. -/
def lookupField : List (String × JVal) → String → Option JVal
  | [], _ => none
  | (k, v) :: rest, key => if k = key then some v else lookupField rest key

/-- Models `key in obj` — property-existence test. -/
def hasField (fs : List (String × JVal)) (key : String) : Bool :=
  (lookupField fs key).isSome

/-- The canonical array index denoted by a string, if any: JavaScript treats
`a["2"]` as `a[2]` exactly when the string is the canonical decimal form of
an index (so `"02"` or `"+2"` are ordinary properties, not indices). -/
def strIndex? (s : String) : Option Nat :=
  match s.toNat? with
  | some n => if toString n = s then some n else none
  | none => none

/-- Property keys are coerced to strings on objects (`o[2]` reads `o["2"]`). -/
def keyToString : JKey → String
  | .str s => s
  | .num n => toString n

/-- Models `current[key]` for an object-like `current`, yielding `none` for
`undefined` (missing property, out-of-range or negative array index, or a
non-index string key on an array, which is invisible to JSON). -/
def getKey : JVal → JKey → Option JVal
  | .obj fs, k => lookupField fs (keyToString k)
  | .arr xs, .num n => if n < 0 then none else xs.get? n.toNat
  | .arr xs, .str s =>
    match strIndex? s with
    | some n => xs.get? n
    | none => none
  | _, _ => none

/-- Property assignment on an object's field list: replace in place when the
key exists, append otherwise (JavaScript key-insertion order). -/
def setField : List (String × JVal) → String → JVal → List (String × JVal)
  | [], key, v => [(key, v)]
  | (k, w) :: rest, key, v =>
    if k = key then (k, v) :: rest else (k, w) :: setField rest key v

/-- Models `delete obj[key]`. -/
def deleteField (fs : List (String × JVal)) (key : String) : List (String × JVal) :=
  fs.filter (fun p => p.1 ≠ key)

/-- Models `arr[i] = v` with `i ≥ 0`: replaces in range, extends the array when
`i ≥ length` (the holes JavaScript leaves serialize as `null`). -/
def setElem : List JVal → Nat → JVal → List JVal
  | _ :: rest, 0, v => v :: rest
  | x :: rest, i + 1, v => x :: setElem rest i v
  | [], 0, v => [v]
  | [], i + 1, v => .null :: setElem [] i v

/-- Models `parent[key] = v` on an object-like parent.  A negative or non-index
key on an array stores a plain property that JSON serialization never
shows; such writes are modelled as no-ops. -/
def setKey (parent : JVal) (k : JKey) (v : JVal) : JVal :=
  match parent with
  | .obj fs => .obj (setField fs (keyToString k) v)
  | .arr xs =>
    match k with
    | .num n => if n < 0 then .arr xs else .arr (setElem xs n.toNat v)
    | .str s =>
      match strIndex? s with
      | some n => .arr (setElem xs n v)
      | none => .arr xs
  | other => other

/-- Models `xs.splice(i, 1)`: removes one element; a negative start counts from the
end and is clamped at 0, a start past the end removes nothing. -/
def spliceRemoveOne (xs : List JVal) (i : Int) : List JVal :=
  let start : Nat := if i < 0 then (((xs.length : Int)) + i).toNat else min i.toNat xs.length
  xs.take start ++ xs.drop (start + 1)

/-- The Delete mutation at a parent: `splice(lastKey, 1)` when the parent is
an array and the key is a number, otherwise `delete parent[lastKey]` (on an
array a string index key leaves a hole, which JSON shows as `null`). -/
def delKey (parent : JVal) (k : JKey) : JVal :=
  match parent, k with
  | .arr xs, .num n => .arr (spliceRemoveOne xs n)
  | .arr xs, .str s =>
    match strIndex? s with
    | some n => if n < xs.length then .arr (xs.set n .null) else .arr xs
    | none => .arr xs
  | .obj fs, key => .obj (deleteField fs (keyToString key))
  | other, _ => other

/-- Models `traversePath`: walk into nested objects/arrays; stepping into anything
that is not object-like (or through a missing key) yields `undefined`,
modelled as `none`. -/
def getPath : JVal → List JKey → Option JVal
  | cur, [] => some cur
  | cur, k :: rest =>
    if isObjLike cur then
      match getKey cur k with
      | some child => getPath child rest
      | none => none
    else none

/-- Pure counterpart of mutating the value a path points at: rebuild the
state with `f` applied at the path's end.  When the traversal fails the
state is returned unchanged, mirroring the source's "abort only the single
mutation" behaviour.  The session state is a tree (every mutation payload
comes from a freshly parsed line), so rebuilding is equivalent to the
source's in-place update. -/
def modifyAtPath : JVal → List JKey → (JVal → JVal) → JVal
  | cur, [], f => f cur
  | cur, k :: rest, f =>
    if isObjLike cur then
      match getKey cur k with
      | some child => setKey cur k (modifyAtPath child rest f)
      | none => cur
    else cur

/-- Split a list into its front and last element. -/
def splitLast {α : Type} : List α → Option (List α × α)
  | [] => none
  | [x] => some ([], x)
  | x :: y :: rest =>
    match splitLast (y :: rest) with
    | some (front, last) => some (x :: front, last)
    | none => some ([], x)

/-- One line of the operation log after the first (`MutationEntry` in
`types.ts`).  `appendOrTruncate` carries `v` as a raw value because the
source checks `Array.isArray(v)` at application time, and `i` as present
exactly when the wire value is a number. -/
inductive MutationEntry where
  | snapshot (v : JVal)
  | set (k : List JKey) (v : JVal)
  | appendOrTruncate (k : List JKey) (v : Option JVal) (i : Option Int)
  | del (k : List JKey)
deriving Repr

/-- Object.assign-style accumulation of fields (later duplicates overwrite
earlier ones, first occurrence keeps its position). -/
def assignFields (start : List (String × JVal)) : List (String × JVal) → List (String × JVal)
  | [] => start
  | (k, v) :: rest => assignFields (setField start k v) rest

/-- Kind-0 compaction: delete every key of the working state, then assign
the payload's entries (`for key of Object.keys(state) delete; Object.assign`).
The object/object case is the operative one; the array cases spell out what
the same two JavaScript statements do there (deleting an array's indices
leaves `null` holes without changing its length, and assigning index
properties overwrites or extends it). -/
def clearAssign (state v : JVal) : JVal :=
  match state, v with
  | .obj _, .obj fv => .obj (assignFields [] fv)
  | .obj _, .arr ys => .obj (assignFields [] (ys.enum.map (fun p => (toString p.1, p.2))))
  | .arr xs, .arr ys => .arr (ys ++ List.replicate (xs.length - ys.length) .null)
  | .arr xs, .obj fv =>
    .arr (fv.foldl
      (fun acc p =>
        match strIndex? p.1 with
        | some i => setElem acc i p.2
        | none => acc)
      (List.replicate xs.length .null))
  | st, _ => st

/-- Models `xs.splice(i)` — truncate from index `i` to the end (negative `i`
counts from the end and is clamped at 0, `i ≥ length` removes nothing). -/
def truncAt (xs : List JVal) (i : Int) : List JVal :=
  xs.take (if i < 0 then (((xs.length : Int)) + i).toNat else i.toNat)

/-- Models `applyMutation` from `jsonlReader.ts`: apply one operation-log entry to
the working state.  A state that is not object-like, an empty path, a
traversal that dead-ends, or a non-array target for kind 2 all leave the
state unchanged. -/
def applyMutation (state : JVal) (e : MutationEntry) : JVal :=
  if isObjLike state then
    match e with
    | .snapshot v => if isObjLike v then clearAssign state v else state
    | .set k v =>
      match splitLast k with
      | none => state
      | some (front, last) =>
        modifyAtPath state front
          (fun parent => if isObjLike parent then setKey parent last v else parent)
    | .appendOrTruncate k v i =>
      if k = [] then state
      else
        modifyAtPath state k
          (fun target =>
            match target with
            | .arr xs =>
              let xs1 := match i with
                | some n => truncAt xs n
                | none => xs
              let xs2 := match v with
                | some (.arr vs) => xs1 ++ vs
                | _ => xs1
              .arr xs2
            | other => other)
    | .del k =>
      match splitLast k with
      | none => state
      | some (front, last) =>
        modifyAtPath state front
          (fun parent => if isObjLike parent then delKey parent last else parent)
  else state

/-- Models `unwrapOperationLog`: the first line is either `{kind: 0, v: <state>}`
or a legacy flat session object (recognised by a `sessionId` property). -/
def unwrapOperationLog (parsed : JVal) : Option JVal :=
  match parsed with
  | .obj fs =>
    if hasField fs "kind" && hasField fs "v" then
      match lookupField fs "kind", lookupField fs "v" with
      | some (.num 0), some v => if isObjLike v then some v else none
      | _, _ => none
    else if hasField fs "sessionId" then some (.obj fs)
    else none
  | _ => none

/-- One iteration of the replay loop: a line that `JSON.parse` rejected (or
whose shape is not a mutation entry) is `none` and is skipped. -/
def applyParsedLine (state : JVal) (line : Option MutationEntry) : JVal :=
  match line with
  | some e => applyMutation state e
  | none => state

/-- The replay loop of `readFullSession` (`for i = 1; i < lines.length`):
sequentially apply each remaining line to the working state. -/
def replayLines (state : JVal) : List (Option MutationEntry) → JVal
  | [] => state
  | line :: rest => replayLines (applyParsedLine state line) rest

/-- Models `readFullSession` on a file with at least one non-empty line.
`firstLine` is the `JSON.parse` result of line 0 (`none` when it throws, in
which case the source falls back to parsing the whole file as one legacy
JSON document, supplied here as `legacyWhole`); `rest` are the parse
results of the remaining non-empty lines in file order. -/
def readFullSession (firstLine : Option JVal) (rest : List (Option MutationEntry))
    (legacyWhole : Option JVal) : Option JVal :=
  match firstLine with
  | none =>
    match legacyWhole with
    | some w => unwrapOperationLog w
    | none => none
  | some first =>
    match unwrapOperationLog first with
    | none => none
    | some st => some (replayLines st rest)

/-! ### Incremental staleness classification (`Indexer.doReindex`) -/

/-- The staleness test of `doReindex`:
`known === undefined || known < stat.mtimeMs` — a file is re-indexed when it
is new to the index or its on-disk mtime is strictly greater than the
recorded one; otherwise it is counted as skipped. -/
def classifyStale (known : Option Int) (mtimeMs : Int) : Bool :=
  match known with
  | none => true
  | some m => decide (m < mtimeMs)

/-- The classification pass over all discovered files: `files` pairs each
path with its statted mtime, `known` is the bulk-fetched map of recorded
mtimes.  Returns the stale list (in discovery order) and the skip count. -/
def classifyFiles (files : List (String × Int)) (known : List (String × Int)) :
    List (String × Int) × Nat :=
  files.foldl
    (fun acc f =>
      if classifyStale (lookupMtime known f.1) f.2 then (acc.1 ++ [f], acc.2)
      else (acc.1, acc.2 + 1))
    ([], 0)
where
  /-- Models `knownMtimes.get(filePath)`. -/
  lookupMtime : List (String × Int) → String → Option Int
    | [], _ => none
    | (p, m) :: rest, path => if p = path then some m else lookupMtime rest path

/-! ### JavaScript string helpers shared by the query surfaces -/

/-- Models `s.trim()` — strip leading and trailing whitespace. -/
def jsTrim (s : String) : String :=
  ⟨(s.data.dropWhile Char.isWhitespace).reverse.dropWhile Char.isWhitespace |>.reverse⟩

/-- A word character in the sense of the regex `\b` boundary: `[A-Za-z0-9_]`. -/
def isWordChar (c : Char) : Bool :=
  c.isAlphanum || c = '_'

/-- Case-insensitive keyword match at the head of a character list: returns
the remaining characters when `kw` (given lowercase) is a prefix. -/
def matchCI : List Char → List Char → Option (List Char)
  | rest, [] => some rest
  | c :: rest, k :: ks => if c.toLower = k then matchCI rest ks else none
  | [], _ :: _ => none

/-- A `\b` boundary holds after a keyword when the input ends or the next
character is not a word character. -/
def boundaryOk : List Char → Bool
  | [] => true
  | c :: _ => !isWordChar c

/-- Models `/^(SELECT|WITH)\b/i.test s` — does the statement start with a
select-family keyword? -/
def selectFamilyOk (s : String) : Bool :=
  (match matchCI s.data "select".data with
   | some rest => boundaryOk rest
   | none => false) ||
  (match matchCI s.data "with".data with
   | some rest => boundaryOk rest
   | none => false)

/-- Does `w` (given lowercase) occur in `cs` as a whole word?  `prevWord`
records whether the previous character was a word character. -/
def scanHasWord (w : List Char) : Bool → List Char → Bool
  | _, [] => false
  | prevWord, c :: rest =>
    (!prevWord &&
      (match matchCI (c :: rest) w with
       | some after => boundaryOk after
       | none => false)) ||
    scanHasWord w (isWordChar c) rest

/-- Models `/\bWORD\b/i.test s`. -/
def containsWordCI (s w : String) : Bool :=
  scanHasWord w.data false s.data

/-! ### Sandboxed read-only queries (`ChatDatabase.queryReadOnly`) -/

/-- Models `ChatDatabase.MAX_QUERY_ROWS`. -/
def MAX_QUERY_ROWS : Nat := 500

/-- The wrapped statement actually executed on the read-only connection:
the caller's trimmed statement as an inner subquery under an outer row
limit one above the cap. -/
def limitedSql (sql : String) : String :=
  "SELECT * FROM (" ++ jsTrim sql ++ ") LIMIT " ++ toString (MAX_QUERY_ROWS + 1)

/-- Models `queryReadOnly`: validate, then run the wrapped statement and flag
truncation.  `fullRows` is the complete result set the inner statement
denotes; executing `limitedSql` against it yields its first
`MAX_QUERY_ROWS + 1` rows (SQL `LIMIT` semantics). -/
def queryReadOnly {α : Type} (sql : String) (fullRows : List α) :
    Except String (List α × Bool) :=
  let trimmed := jsTrim sql
  if !selectFamilyOk trimmed then .error "Only SELECT statements are allowed"
  else if containsWordCI trimmed "recursive" then .error "Recursive CTEs are not supported"
  else
    let fetched := fullRows.take (MAX_QUERY_ROWS + 1)
    let truncated := decide (fetched.length > MAX_QUERY_ROWS)
    .ok (if truncated then fetched.take MAX_QUERY_ROWS else fetched, truncated)

/-! ### Full-text search expression building (`ChatDatabase.search`) -/

/-- The FTS5 boolean operator keywords preserved verbatim. -/
def FTS_OPERATORS : List String := ["OR", "NOT", "AND"]

/-- ASCII upper-casing, modelling `term.toUpperCase()` on the operator
keywords the code compares against. -/
def asciiUpper (s : String) : String :=
  ⟨s.data.map Char.toUpper⟩

/-- Membership in the operator set. -/
def isFtsOp (t : String) : Bool :=
  FTS_OPERATORS.contains t

/-- Models `term.replace(/"/g, '""')`. -/
def escQuotes (t : String) : String :=
  ⟨t.data.foldr (fun c acc => if c = '"' then '"' :: '"' :: acc else c :: acc) []⟩

/-- Map one whitespace-separated token: a boolean operator keyword is
upper-cased and preserved, every other token is double-quoted (embedded
quotes doubled) and suffixed with `*` for prefix matching. -/
def mapToken (t : String) : String :=
  if isFtsOp (asciiUpper t) then asciiUpper t
  else "\"" ++ escQuotes t ++ "\"*"

/-- Models `query.trim().split(/\s+/)` on an already-trimmed string: split into
maximal runs of non-whitespace characters. -/
def splitWs (s : String) : List String :=
  go [] s.data
where
  go (acc : List Char) : List Char → List String
    | [] => if acc.isEmpty then [] else [⟨acc.reverse⟩]
    | c :: rest =>
      if c.isWhitespace then
        if acc.isEmpty then go [] rest else ⟨acc.reverse⟩ :: go [] rest
      else go (c :: acc) rest

/-- The leading-operator strip loop
(`while tokens.length > 0 && FTS_OPERATORS.has(tokens[0])  tokens.shift()`). -/
def stripLeadingOps : List String → List String
  | [] => []
  | t :: rest => if isFtsOp t then stripLeadingOps rest else t :: rest

/-- The trailing-operator strip loop (`while ... tokens.pop()`), expressed
as the leading strip on the reversed token list. -/
def stripTrailingOps (ts : List String) : List String :=
  (stripLeadingOps ts.reverse).reverse

/-- Models `tokens.join(' ')`. -/
def joinSpace : List String → String
  | [] => ""
  | [t] => t
  | t :: rest => t ++ " " ++ joinSpace rest

/-- The match-expression construction of `ChatDatabase.search`; `none`
models the two early returns (`!query.trim()` and `!ftsQuery`) that yield
an empty result list without touching the database. -/
def buildFtsExpr (query : String) : Option String :=
  if jsTrim query = "" then none
  else
    let tokens := (splitWs (jsTrim query)).map mapToken
    let fts := joinSpace (stripTrailingOps (stripLeadingOps tokens))
    if fts = "" then none else some fts

/-- Models `search` up to the database round-trip: `exec` stands for running the
FTS query (the `SELECT ... WHERE turns_fts MATCH ?` join) and is only
reached with a non-empty match expression. -/
def search {α : Type} (query : String) (exec : String → List α) : List α :=
  match buildFtsExpr query with
  | none => []
  | some fts => exec fts

/-! ### Reindex coalescing (`Indexer.reindex`) -/

/-- Events observable at the coalescing guard, in event-loop order: a
`reindex()` invocation running its synchronous prologue, and the in-flight
run settling (the `finally` that clears `inFlightReindex`). -/
inductive REv where
  | call
  | settle
deriving Repr, DecidableEq

/-- The guard state: `inFlight` holds the id of the running structural
pass, if any; `nextRun` numbers the passes; `started` counts passes
actually started; `joined i` = the pass whose outcome the i-th caller
awaits. -/
structure RState where
  inFlight : Option Nat
  nextRun : Nat
  started : Nat
  joined : List Nat
deriving Repr, DecidableEq

/-- The idle guard. -/
def initR : RState :=
  { inFlight := none, nextRun := 0, started := 0, joined := [] }

/-- One event against the guard, as `reindex()` implements it: a call
finding `inFlightReindex` set returns that same promise (joins the run
without starting anything); a call finding it clear starts a fresh
`doReindex` pass and installs its promise; settling clears the guard. -/
def rstep (s : RState) : REv → RState
  | .call =>
    match s.inFlight with
    | some r => { s with joined := s.joined ++ [r] }
    | none =>
      { inFlight := some s.nextRun, nextRun := s.nextRun + 1,
        started := s.started + 1, joined := s.joined ++ [s.nextRun] }
  | .settle => { s with inFlight := none }

/-- Process a sequence of events. -/
def rrun (s : RState) (evs : List REv) : RState :=
  evs.foldl rstep s

/-! ### JavaScript value coercions used by the extraction code -/

/-- JavaScript truthiness of a JSON value (`undefined` is handled at the
`Option` layer by the callers). -/
def jsTruthy : JVal → Bool
  | .null => false
  | .bool b => b
  | .num n => n != 0
  | .str s => s != ""
  | .arr _ => true
  | .obj _ => true

/-- Models `xs.join(sep)` for a list of strings. -/
def joinStrings (sep : String) : List String → String
  | [] => ""
  | [x] => x
  | x :: rest => x ++ sep ++ joinStrings sep rest

mutual

/-- Models `String(v)` for a JSON value: strings pass through, numbers and
booleans print, `null` prints as `"null"`, arrays join their elements with
commas (`Array.prototype.toString`, with `null` elements becoming empty),
and plain objects print as `"[object Object]"`. -/
def jsString : JVal → String
  | .null => "null"
  | .bool b => if b then "true" else "false"
  | .num n => toString n
  | .str s => s
  | .arr xs => joinStrings "," (jsStringElems xs)
  | .obj _ => "[object Object]"

/-- Element stringification inside `Array.prototype.join`. -/
def jsStringElems : List JVal → List String
  | [] => []
  | .null :: xs => "" :: jsStringElems xs
  | x :: xs => jsString x :: jsStringElems xs

end

/-- Models `a || b` over a possibly-absent left operand, as used in the `x || y`
fallback chains of the extraction code. -/
def jsOrVal (a : Option JVal) (b : JVal) : JVal :=
  match a with
  | some v => if jsTruthy v then v else b
  | none => b

/-- Models `x ? String(x) : ''` / `x || ''` at a string sink: a truthy value is
coerced to a string, everything else becomes the empty string. -/
def strOfJs (o : Option JVal) : String :=
  match o with
  | some v => if jsTruthy v then jsString v else ""
  | none => ""

/-- Models `x || y` on optional strings (the empty string falls through). -/
def jsoStr (o : Option String) (dflt : String) : String :=
  match o with
  | some s => if s = "" then dflt else s
  | none => dflt

/-- Models `x || y` on optional numbers (0 falls through). -/
def jsoInt (o : Option Int) (dflt : Int) : Int :=
  match o with
  | some n => if n = 0 then dflt else n
  | none => dflt

/-- Models `path.basename` (posix): the last path component, ignoring trailing
slashes. -/
def basename (s : String) : String :=
  let cs := s.data.reverse.dropWhile (· = '/')
  ⟨(cs.takeWhile (· ≠ '/')).reverse⟩

/-! ### Response-part extraction (`utils.ts`) -/

/-- A structured facet extracted during indexing (`ExtractedAnnotation`). -/
structure Annot where
  kind : String
  name : String
  uri : String
  detail : String
deriving Repr, DecidableEq

/-- Models `extractUri`: a raw string is taken as-is, an object contributes its
`path` property (a non-string `path` is outside the modelled domain),
anything else yields the empty string. -/
def extractUriJs : Option JVal → String
  | some (.str s) => s
  | some (.obj fs) =>
    match lookupField fs "path" with
    | some (.str s) => s
    | _ => ""
  | _ => ""

/-- One iteration of the `switch (part.kind)` loop of
`extractResponseParts`: the texts the part contributes (as raw values, as
the source pushes them) and the annotation records it emits. -/
def extractOnePart (p : JVal) : List JVal × List Annot :=
  match p with
  | .obj fs =>
    match lookupField fs "kind" with
    | some (.str "markdownContent") =>
      (match lookupField fs "content" with
       | some (.str s) => ([.str s], [])
       | some (.obj cfs) =>
         (match lookupField cfs "value" with
          | some v => ([v], [])
          | none => ([], []))
       | _ => ([], []))
    | some (.str "inlineReference") =>
      let name := match lookupField fs "inlineReference" with
        | some (.obj rfs) => strOfJs (lookupField rfs "name")
        | _ => ""
      let uri := match lookupField fs "inlineReference" with
        | some (.obj rfs) => strOfJs (lookupField rfs "uri")
        | _ => ""
      ((if name != "" then [JVal.str name] else []) ++
         (if uri != "" then [JVal.str uri] else []),
       [⟨"file_ref", name, uri, ""⟩])
    | some (.str "toolInvocationSerialized") =>
      let toolName :=
        jsString (jsOrVal (lookupField fs "toolId")
          (jsOrVal (lookupField fs "toolName") (.str "")))
      let detail :=
        jsString (jsOrVal (lookupField fs "invocationMessage")
          (jsOrVal (lookupField fs "input") (.str "")))
      ((if toolName != "" then [JVal.str toolName] else []) ++
         (if detail != "" then [JVal.str detail] else []),
       if toolName != "" then [⟨"tool", toolName, "", detail.take 500⟩] else [])
    | some (.str "textEditGroup") =>
      let uri := extractUriJs (lookupField fs "uri")
      ((if uri != "" then [JVal.str uri] else []),
       [⟨"file_edit", if uri != "" then basename uri else "", uri, ""⟩])
    | some (.str "codeblockUri") =>
      let uri := extractUriJs (lookupField fs "uri")
      ((if uri != "" then [JVal.str uri] else []),
       [⟨"codeblock", if uri != "" then basename uri else "", uri, ""⟩])
    | some (.str "thinking") =>
      let text := match lookupField fs "content" with
        | some (.str s) => s
        | some (.obj tfs) =>
          (match lookupField tfs "value" with
           | some (.str s) => s
           | _ => "")
        | _ => ""
      ((if text != "" then [JVal.str text] else []),
       [⟨"thinking", "", "", text.take 500⟩])
    | some (.str "confirmationWidget") =>
      (match lookupField fs "title" with
       | some (.str s) => ([JVal.str s], [])
       | _ => ([], []))
    | _ => ([], [])
  | _ => ([], [])

/-- A pushed text as it appears after `texts.join('\n')` (`null` joins as
the empty string, other values coerce via `String`). -/
def textJoinElem : JVal → String
  | .null => ""
  | v => jsString v

/-- Models `extractResponseParts`: flattened searchable text (joined with
newlines and trimmed) plus the annotations that carry at least one of
name / uri / detail. -/
def extractResponseParts (parts : List JVal) : String × List Annot :=
  let acc := parts.foldl
    (fun (acc : List JVal × List Annot) p =>
      let r := extractOnePart p
      (acc.1 ++ r.1, acc.2 ++ r.2))
    ([], [])
  (jsTrim (joinStrings "\n" (acc.1.map textJoinElem)),
   acc.2.filter (fun a => a.name != "" || a.uri != "" || a.detail != ""))

/-! ### The persistent store (`database.ts`) -/

/-- A row of the `sessions` table. -/
structure SessRow where
  session_id : String
  file_path : String
  title : Option String
  creation_date : Int
  request_count : Int
  last_message : Option String
  model_ids : String
  agents : String
  total_tokens : Int
  has_votes : Int
  file_size : Int
  storage_type : String
  workspace_path : String
  file_mtime : Int
deriving Repr, DecidableEq

/-- The in-memory session summary (`SessionSummary` in `types.ts`).
`storageType` is one of the three storage category strings; the source
reads it back from the row with an unchecked cast, so it is modelled as a
plain string. -/
structure SessionSummary where
  sessionId : String
  filePath : String
  title : Option String
  creationDate : Int
  requestCount : Int
  lastMessage : Option String
  modelIds : List String
  agents : List String
  totalTokens : Int
  hasVotes : Bool
  fileSize : Int
  storageType : String
  workspacePath : String
deriving Repr, DecidableEq

/-- Models `s || null` at a nullable column bind: the empty string is stored as
SQL `NULL`. -/
def strOrNull (o : Option String) : Option String :=
  match o with
  | some t => if t = "" then none else some t
  | none => none

/-- The accumulator loop behind `splitOnComma`. -/
def splitCommaGo (acc : List Char) : List Char → List String
  | [] => [⟨acc.reverse⟩]
  | c :: rest =>
    if c = ',' then ⟨acc.reverse⟩ :: splitCommaGo [] rest
    else splitCommaGo (c :: acc) rest

/-- Models `xs.split(',')` — split on commas, keeping empty pieces, as
JavaScript's `String.prototype.split` does. -/
def splitOnComma (s : String) : List String :=
  splitCommaGo [] s.data

/-- The row written by `ChatDatabase.upsertSession` for a summary and the
mtime recorded as the staleness watermark. -/
def sessionRowOf (s : SessionSummary) (mtime : Int) : SessRow :=
  { session_id := s.sessionId
    file_path := s.filePath
    title := strOrNull s.title
    creation_date := s.creationDate
    request_count := s.requestCount
    last_message := strOrNull s.lastMessage
    model_ids := joinStrings "," s.modelIds
    agents := joinStrings "," s.agents
    total_tokens := s.totalTokens
    has_votes := if s.hasVotes then 1 else 0
    file_size := s.fileSize
    storage_type := s.storageType
    workspace_path := s.workspacePath
    file_mtime := mtime }

/-- Models `INSERT ... ON CONFLICT(session_id) DO UPDATE SET <all columns>`:
replace the existing row in place, or append a fresh one. -/
def upsertSessionRows (tbl : List SessRow) (s : SessionSummary) (mtime : Int) :
    List SessRow :=
  if tbl.any (fun r => r.session_id = s.sessionId) then
    tbl.map (fun r => if r.session_id = s.sessionId then sessionRowOf s mtime else r)
  else tbl ++ [sessionRowOf s mtime]

/-- The optional filters of `listSessions`. -/
structure ListOpts where
  maxAgeDays : Option Int := none
  storageType : Option String := none
  workspacePath : Option String := none
  limit : Option Nat := none
  offset : Option Nat := none
deriving Repr

/-- The summary `listSessions` rebuilds from a row (`NULL`/empty columns
fall back exactly as in the source's row mapping). -/
def summaryOfRow (r : SessRow) : SessionSummary :=
  { sessionId := r.session_id
    filePath := r.file_path
    title := strOrNull r.title
    creationDate := r.creation_date
    requestCount := r.request_count
    lastMessage := strOrNull r.last_message
    modelIds := if r.model_ids ≠ "" then splitOnComma r.model_ids else []
    agents := if r.agents ≠ "" then splitOnComma r.agents else []
    totalTokens := r.total_tokens
    hasVotes := r.has_votes = 1
    fileSize := r.file_size
    storageType := r.storage_type
    workspacePath := r.workspace_path }

/-- Models `listSessions`: apply the optional `WHERE` conditions (a zero or
negative `maxAgeDays` and empty filter strings are falsy and add no
condition), order by creation date descending, then apply `OFFSET` and
`LIMIT`, and map rows back to summaries.  `nowMs` stands for `Date.now()`. -/
def listSessions (tbl : List SessRow) (opts : ListOpts) (nowMs : Int) :
    List SessionSummary :=
  let afterAge := match opts.maxAgeDays with
    | some d => if d > 0 then tbl.filter (fun r : SessRow => r.creation_date ≥ nowMs - d * 86400000) else tbl
    | none => tbl
  let afterType := match opts.storageType with
    | some t => if t ≠ "" then afterAge.filter (fun r : SessRow => r.storage_type = t) else afterAge
    | none => afterAge
  let afterWs := match opts.workspacePath with
    | some w => if w ≠ "" then afterType.filter (fun r : SessRow => r.workspace_path = w) else afterType
    | none => afterType
  let sorted := afterWs.insertionSort (fun a b : SessRow => a.creation_date ≥ b.creation_date)
  let afterOffset := match opts.offset with
    | some o => if o > 0 then sorted.drop o else sorted
    | none => sorted
  let afterLimit := match opts.limit with
    | some n => if n > 0 then afterOffset.take n else afterOffset
    | none => afterOffset
  afterLimit.map summaryOfRow

/-- A stored row of the `turns` table. -/
structure TurnRec where
  id : Nat
  session_id : String
  turn_index : Nat
  prompt_text : String
  response_text : String
  agent : String
  model : String
  timestamp : Int
  duration_ms : Int
  token_total : Int
  token_prompt : Int
  token_completion : Int
  vote : Option Int
deriving Repr, DecidableEq

/-- The payload of `upsertTurn` (a `TurnRow` before the store assigns the
row id). -/
structure TurnInput where
  sessionId : String
  turnIndex : Nat
  promptText : String
  responseText : String
  agent : String
  model : String
  timestamp : Int
  durationMs : Int
  tokenTotal : Int
  tokenPrompt : Int
  tokenCompletion : Int
  vote : Option Int
deriving Repr, DecidableEq

/-- A stored row of the `annotations` table. -/
structure AnnRow where
  id : Nat
  turn_id : Nat
  kind : String
  name : String
  uri : String
  detail : String
deriving Repr, DecidableEq

/-- The persistent store: the three tables plus the id counters SQLite's
integer primary keys stand for.  (The FTS shadow table is a derived
projection of `turns` kept in sync by triggers and is not modelled
separately.) -/
structure DBState where
  sessions : List SessRow
  turns : List TurnRec
  annots : List AnnRow
  nextTurnId : Nat
  nextAnnId : Nat
deriving Repr, DecidableEq

/-- Models `DELETE FROM turns WHERE session_id = ?`, with the `ON DELETE CASCADE`
from `annotations.turn_id`. -/
def deleteTurnsForSession (db : DBState) (sid : String) : DBState :=
  let removedIds := (db.turns.filter (fun t => t.session_id = sid)).map (·.id)
  { db with
    turns := db.turns.filter (fun t => t.session_id ≠ sid)
    annots := db.annots.filter (fun a => a.turn_id ∉ removedIds) }

/-- Models `DELETE FROM sessions WHERE file_path = ? [AND session_id != ?]`, with
the cascade through `turns` down to `annotations`. -/
def deleteSessionsByFilePath (db : DBState) (filePath : String)
    (exceptSessionId : Option String) : DBState :=
  let dead : SessRow → Bool := fun r =>
    r.file_path = filePath &&
      match exceptSessionId with
      | some e => r.session_id ≠ e
      | none => true
  let deadSids := (db.sessions.filter dead).map (·.session_id)
  let deadTurnIds := (db.turns.filter (fun t => t.session_id ∈ deadSids)).map (·.id)
  { db with
    sessions := db.sessions.filter (fun r => !dead r)
    turns := db.turns.filter (fun t => t.session_id ∉ deadSids)
    annots := db.annots.filter (fun a => a.turn_id ∉ deadTurnIds) }

/-- Models `upsertSession` at the store level. -/
def upsertSessionDB (db : DBState) (s : SessionSummary) (mtime : Int) : DBState :=
  { db with sessions := upsertSessionRows db.sessions s mtime }

/-- Whether a stored turn conflicts with an incoming one on the
`UNIQUE(session_id, turn_index)` constraint. -/
def turnConflicts (t : TurnInput) (r : TurnRec) : Bool :=
  r.session_id = t.sessionId && r.turn_index = t.turnIndex

/-- Models `upsertTurn`: `INSERT ... ON CONFLICT(session_id, turn_index) DO
UPDATE SET <payload columns>` followed by the id lookup the caller relies
on (`SELECT id FROM turns WHERE session_id = ? AND turn_index = ?`). -/
def upsertTurnDB (db : DBState) (t : TurnInput) : DBState × Nat :=
  let db' :=
    if db.turns.any (turnConflicts t) then
      { db with
        turns := db.turns.map (fun r =>
          if turnConflicts t r then
            { r with
              prompt_text := t.promptText, response_text := t.responseText
              agent := t.agent, model := t.model
              timestamp := t.timestamp, duration_ms := t.durationMs
              token_total := t.tokenTotal, token_prompt := t.tokenPrompt
              token_completion := t.tokenCompletion, vote := t.vote }
          else r) }
    else
      { db with
        turns := db.turns ++
          [{ id := db.nextTurnId
             session_id := t.sessionId, turn_index := t.turnIndex
             prompt_text := t.promptText, response_text := t.responseText
             agent := t.agent, model := t.model
             timestamp := t.timestamp, duration_ms := t.durationMs
             token_total := t.tokenTotal, token_prompt := t.tokenPrompt
             token_completion := t.tokenCompletion, vote := t.vote }]
        nextTurnId := db.nextTurnId + 1 }
  (db', (((db'.turns.find? (turnConflicts t)).map (·.id))).getD 0)

/-- Models `addAnnotations`: batch insert, no-op on the empty list. -/
def addAnnotsDB (db : DBState) (turnId : Nat) (anns : List Annot) : DBState :=
  anns.foldl
    (fun acc a =>
      { acc with
        annots := acc.annots ++
          [{ id := acc.nextAnnId, turn_id := turnId
             kind := a.kind, name := a.name, uri := a.uri, detail := a.detail }]
        nextAnnId := acc.nextAnnId + 1 })
    db

/-! ### The indexer write path (`Indexer.indexSession` and the batch loop) -/

/-- A user-provided variable attached to a request
(`SerializableChatVariable`, the fields the indexer reads). -/
structure ChatVariableL where
  id : String
  name : String
  value : Option JVal
deriving Repr

/-- One request of the replayed session state, flattened to the fields the
indexer reads (each optional chain `a?.b` becomes one optional field that
is absent when any link of the chain is). -/
structure RequestL where
  messageText : Option String
  variableData : Option (List ChatVariableL)
  response : Option (List JVal)
  agentId : Option String
  agentAgentId : Option String
  modelId : Option String
  timestamp : Option Int
  totalElapsed : Option Int
  usageTotal : Option Int
  usagePrompt : Option Int
  usageCompletion : Option Int
  vote : Option Int
deriving Repr

/-- The replayed session data the indexer consumes. -/
structure SessionDataL where
  sessionId : String
  creationDate : Int
  requests : Option (List RequestL)
deriving Repr

/-- The annotation-retention filter of `indexSession`
(`a.kind === 'tool' || (a.kind === 'thinking' && a.detail) || a.name ||
a.uri || a.detail`). -/
def keepAnn (a : Annot) : Bool :=
  a.kind == "tool" || (a.kind == "thinking" && a.detail != "") ||
    a.name != "" || a.uri != "" || a.detail != ""

/-- The turn row and annotation list `indexSession` builds for the `i`-th
request: extraction over the response parts, attachment annotations from
the request's variables, and the `||` fallback chains on the scalar
fields. -/
def mkTurnData (data : SessionDataL) (i : Nat) (req : RequestL) :
    TurnInput × List Annot :=
  let er := extractResponseParts (req.response.getD [])
  let attach : List Annot := match req.variableData with
    | some vs =>
      vs.map (fun v : ChatVariableL =>
        { kind := "attachment"
          name := if v.name ≠ "" then v.name else v.id
          uri := match v.value with
            | some (.str s) => s
            | _ => ""
          detail := "" })
    | none => []
  ({ sessionId := data.sessionId
     turnIndex := i
     promptText := (req.messageText).getD ""
     responseText := er.1
     agent := jsoStr req.agentId (jsoStr req.agentAgentId "")
     model := jsoStr req.modelId ""
     timestamp := jsoInt req.timestamp (jsoInt (some data.creationDate) 0)
     durationMs := jsoInt req.totalElapsed 0
     tokenTotal := jsoInt req.usageTotal 0
     tokenPrompt := jsoInt req.usagePrompt 0
     tokenCompletion := jsoInt req.usageCompletion 0
     vote := match req.vote with
       | some v => if v = 0 then none else some v
       | none => none },
   (er.2 ++ attach).filter keepAnn)

/-- Failure injection for the transactional write: `oracle step = true`
makes the `step`-th database call of the transaction reject, modelling an
arbitrary write failure. -/
def noFail : Nat → Bool := fun _ => false

/-- The per-turn loop of `indexSession`: upsert each turn (and its
annotations when present) against the pending transaction state.  Returns
the pending state and the next step number, or the injected failure. -/
def insertTurnsLoop (oracle : Nat → Bool) (data : SessionDataL) :
    Nat → Nat → DBState → List RequestL → Except Unit (DBState × Nat)
  | step, _, db, [] => .ok (db, step)
  | step, i, db, req :: rest =>
    let td := mkTurnData data i req
    if oracle step then .error ()
    else
      let r := upsertTurnDB db td.1
      if td.2.length > 0 then
        if oracle (step + 1) then .error ()
        else insertTurnsLoop oracle data (step + 2) (i + 1) (addAnnotsDB r.1 r.2 td.2) rest
      else insertTurnsLoop oracle data (step + 1) (i + 1) r.1 rest

/-- The body of the transaction in `indexSession`: delete stale rows
sharing the file path, upsert the session summary, clear the session's
old turns, insert the new turns and annotations, then commit (the final
step).  Every write acts on the pending state only. -/
def txBody (db : DBState) (summary : SessionSummary) (data : SessionDataL)
    (mtime : Int) (oracle : Nat → Bool) (reqs : List RequestL) :
    Except Unit DBState :=
  if oracle 1 then .error ()
  else
    let p1 := deleteSessionsByFilePath db summary.filePath (some data.sessionId)
    if oracle 2 then .error ()
    else
      let p2 := upsertSessionDB p1 summary mtime
      if oracle 3 then .error ()
      else
        let p3 := deleteTurnsForSession p2 data.sessionId
        match insertTurnsLoop oracle data 4 0 p3 reqs with
        | .error _ => .error ()
        | .ok r => if oracle r.2 then .error () else .ok r.1

/-- Models `indexSession`: no-op success when the replayed state has no `requests`
field; otherwise `BEGIN IMMEDIATE` (step 0), the transaction body, and
`COMMIT` — with `ROLLBACK` restoring the pre-transaction store on any
failure, which is then reported to the caller (`false`). -/
def indexSession (db : DBState) (summary : SessionSummary) (data : SessionDataL)
    (mtime : Int) (oracle : Nat → Bool) : Bool × DBState :=
  match data.requests with
  | none => (true, db)
  | some reqs =>
    if oracle 0 then (false, db)
    else
      match txBody db summary data mtime oracle reqs with
      | .ok p => (true, p)
      | .error _ => (false, db)

/-- The sequential write loop of `doReindex` over one batch of parsed
files: a `none` entry (parse failure) is skipped, a session whose write
fails is logged and skipped, and every remaining entry is still processed.
`oracles j` is the failure injection for the `j`-th entry; returns the
final store and the `indexed` counter. -/
def writeBatch (db : DBState) (acc : Nat)
    (entries : List (Option (SessionSummary × SessionDataL × Int)))
    (oracles : Nat → Nat → Bool) (j : Nat) : DBState × Nat :=
  match entries with
  | [] => (db, acc)
  | none :: rest => writeBatch db acc rest oracles (j + 1)
  | some e :: rest =>
    let r := indexSession db e.1 e.2.1 e.2.2 (oracles j)
    writeBatch r.2 (acc + if r.1 then 1 else 0) rest oracles (j + 1)

/-! ## Helper lemmas -/

theorem cap_take_spec {α : Type} (l : List α) (cap : Nat) :
    ((if decide ((l.take (cap + 1)).length > cap) = true
      then (l.take (cap + 1)).take cap else l.take (cap + 1)) = l.take cap) ∧
    decide ((l.take (cap + 1)).length > cap) = decide (l.length > cap) := by
  by_cases h : l.length > cap
  · have b1 : decide ((l.take (cap + 1)).length > cap) = true := by
      apply decide_eq_true
      rw [List.length_take]
      omega
    have b2 : decide (l.length > cap) = true := decide_eq_true h
    refine ⟨?_, by rw [b1, b2]⟩
    rw [if_pos b1, List.take_take]
    congr 1
    omega
  · have hle : l.length ≤ cap := Nat.not_lt.1 h
    have h3 : l.take (cap + 1) = l := List.take_of_length_le (by omega)
    have h4 : l.take cap = l := List.take_of_length_le hle
    have b1 : decide ((l.take (cap + 1)).length > cap) = false := by
      rw [h3]
      exact decide_eq_false h
    have b2 : decide (l.length > cap) = false := decide_eq_false h
    refine ⟨?_, by rw [b1, b2]⟩
    rw [if_neg (by rw [b1]; exact Bool.false_ne_true), h3, h4]

theorem replayLines_eq_foldl (rest : List (Option MutationEntry)) (st : JVal) :
    replayLines st rest =
      rest.foldl
        (fun s line =>
          match line with
          | some e => applyMutation s e
          | none => s)
        st := by
  induction rest generalizing st with
  | nil => rfl
  | cons l rest ih =>
    cases l <;> simp [replayLines, applyParsedLine, List.foldl, ih]

theorem modifyAtPath_congr (path : List JKey) (cur : JVal) (f g : JVal → JVal)
    (t : JVal) (ht : getPath cur path = some t) (hfg : f t = g t) :
    modifyAtPath cur path f = modifyAtPath cur path g := by
  induction path generalizing cur with
  | nil =>
    simp [getPath] at ht
    subst ht
    simpa [modifyAtPath] using hfg
  | cons k rest ih =>
    by_cases hobj : isObjLike cur
    · simp [getPath, hobj] at ht
      simp [modifyAtPath, hobj]
      cases hget : getKey cur k with
      | none => simp [hget] at ht
      | some child =>
        simp [hget] at ht ⊢
        exact congrArg _ (ih child ht)
    · simp [modifyAtPath, hobj]

theorem isObjLike_of_getPath_cons (cur : JVal) (k : JKey) (rest : List JKey)
    (t : JVal) (ht : getPath cur (k :: rest) = some t) : isObjLike cur = true := by
  by_cases hobj : isObjLike cur
  · exact hobj
  · simp [getPath, hobj] at ht

theorem setField_append_of_not_mem (fs : List (String × JVal)) (k : String)
    (v : JVal) (h : k ∉ fs.map Prod.fst) : setField fs k v = fs ++ [(k, v)] := by
  induction fs with
  | nil => rfl
  | cons p rest ih =>
    obtain ⟨k1, v1⟩ := p
    have h1 : k ≠ k1 := fun e => h (by simp [e])
    have h2 : k ∉ rest.map Prod.fst := fun e => h (by simp [e])
    simp [setField, Ne.symm h1, ih h2]

theorem assignFields_eq_append (fv : List (String × JVal)) :
    ∀ start : List (String × JVal),
      (∀ k ∈ fv.map Prod.fst, k ∉ start.map Prod.fst) →
      (fv.map Prod.fst).Nodup →
      assignFields start fv = start ++ fv := by
  induction fv with
  | nil => intro start _ _; simp [assignFields]
  | cons p rest ih =>
    intro start hdisj hnd
    obtain ⟨k, v⟩ := p
    rw [List.map_cons, List.nodup_cons] at hnd
    have hk : k ∉ start.map Prod.fst := hdisj k (by simp)
    have hstep : setField start k v = start ++ [(k, v)] :=
      setField_append_of_not_mem start k v hk
    have hrest : ∀ k' ∈ rest.map Prod.fst, k' ∉ (start ++ [(k, v)]).map Prod.fst := by
      intro k' hk'
      rw [List.map_append, List.mem_append]
      rintro (h1 | h2)
      · exact hdisj k' (by simp [hk']) h1
      · simp only [List.map_cons, List.map_nil, List.mem_singleton] at h2
        exact hnd.1 (h2 ▸ hk')
    calc assignFields start ((k, v) :: rest)
        = assignFields (start ++ [(k, v)]) rest := by simp [assignFields, hstep]
      _ = (start ++ [(k, v)]) ++ rest := ih (start ++ [(k, v)]) hrest hnd.2
      _ = start ++ ((k, v) :: rest) := by simp

theorem lookupField_eq_none_of_not_mem (fv : List (String × JVal)) (k : String)
    (h : k ∉ fv.map Prod.fst) : lookupField fv k = none := by
  induction fv with
  | nil => rfl
  | cons p rest ih =>
    obtain ⟨k1, v1⟩ := p
    have h1 : k ≠ k1 := fun e => h (by simp [e])
    have h2 : k ∉ rest.map Prod.fst := fun e => h (by simp [e])
    simp [lookupField, Ne.symm h1, ih h2]

/-! ## Claim C1 — staleness classification -/

/-- C1, as stated, is false on the code: `doReindex` re-indexes only when
`known < stat.mtimeMs`, so a file whose on-disk mtime (3) differs from the
recorded one (5) by having moved backwards is *not* classified stale — one
such file is counted as skipped, not re-parsed. -/
theorem claim1_counterexample :
    classifyStale (some 5) 3 = false ∧ ((5 : Int) ≠ 3) ∧
      classifyFiles [("a", 3)] [("a", 5)] = ([], 1) := by
  decide

/-- C1 (amended): during an incremental reindex a discovered file is
classified stale exactly when it is new to the index or its current
on-disk modification time is strictly greater than the recorded one; a
file whose current time is less than or equal to the recorded one
(including an apparent reversion) is counted as skipped. -/
theorem claim1_staleness (known : Option Int) (cur : Int) :
    (classifyStale known cur = true ↔
      known = none ∨ ∃ m, known = some m ∧ m < cur) ∧
    (classifyStale known cur = false ↔ ∃ m, known = some m ∧ cur ≤ m) := by
  cases known with
  | none => simp [classifyStale]
  | some m =>
    constructor
    · simp [classifyStale]
    · simp [classifyStale, not_lt]

/-! ## Claim C3 — replay is a left fold over the mutation lines -/

/-- C3: for a file whose first line yields an initial snapshot state,
`readFullSession` returns exactly the left-fold of `applyMutation` over
the remaining non-empty lines in file order — each parseable line applied
exactly once, each unparseable line acting as the identity, and the
replay never aborting. -/
theorem claim3_readFullSession_foldl (first st : JVal)
    (rest : List (Option MutationEntry)) (legacy : Option JVal)
    (h : unwrapOperationLog first = some st) :
    readFullSession (some first) rest legacy =
      some (rest.foldl
        (fun s line =>
          match line with
          | some e => applyMutation s e
          | none => s)
        st) := by
  simp [readFullSession, h, replayLines_eq_foldl]

/-- C3 witness: a concrete snapshot line followed by one malformed line
and one Set mutation. -/
theorem claim3_witness :
    unwrapOperationLog
        (.obj [("kind", .num 0), ("v", .obj [("sessionId", .str "abc")])]) =
      some (.obj [("sessionId", .str "abc")]) ∧
    readFullSession
        (some (.obj [("kind", .num 0), ("v", .obj [("sessionId", .str "abc")])]))
        [none, some (.set [.str "x"] (.num 1))] none =
      some (([none, some (.set [.str "x"] (.num 1))] :
            List (Option MutationEntry)).foldl
        (fun s line =>
          match line with
          | some e => applyMutation s e
          | none => s)
        (.obj [("sessionId", .str "abc")])) :=
  ⟨rfl,
   claim3_readFullSession_foldl
     (.obj [("kind", .num 0), ("v", .obj [("sessionId", .str "abc")])])
     (.obj [("sessionId", .str "abc")])
     [none, some (.set [.str "x"] (.num 1))] none rfl⟩

/-! ## Claim C4 — AppendOrTruncate truncates before appending -/

/-- C4: an AppendOrTruncate mutation whose path resolves to an array and
which carries both a non-negative truncation index `i` and appended
values first truncates the array to length `i` (any non-negative `i`,
including 0) and then appends the values in order. -/
theorem claim4_truncate_then_append (state : JVal) (k : List JKey)
    (xs vs : List JVal) (i : Int) (hk : k ≠ []) (hi : 0 ≤ i)
    (ht : getPath state k = some (.arr xs)) :
    applyMutation state (.appendOrTruncate k (some (.arr vs)) (some i)) =
      modifyAtPath state k (fun _ => .arr (xs.take i.toNat ++ vs)) := by
  obtain ⟨k0, krest, rfl⟩ : ∃ k0 krest, k = k0 :: krest := by
    cases k with
    | nil => exact absurd rfl hk
    | cons k0 krest => exact ⟨k0, krest, rfl⟩
  have hobj := isObjLike_of_getPath_cons state k0 krest _ ht
  simp only [applyMutation, hobj, if_true]
  rw [if_neg (by simp)]
  exact modifyAtPath_congr _ _ _ _ _ ht (by simp [truncAt, not_lt.2 hi])

/-- C4 witness: truncating a 5-element array at index 0, then appending 2
elements, leaves exactly those 2 elements in order. -/
theorem claim4_witness :
    ([JKey.str "requests"] ≠ []) ∧ ((0 : Int) ≤ 0) ∧
    getPath (.obj [("requests", .arr [.num 1, .num 2, .num 3, .num 4, .num 5])])
        [.str "requests"] =
      some (.arr [.num 1, .num 2, .num 3, .num 4, .num 5]) ∧
    applyMutation
        (.obj [("requests", .arr [.num 1, .num 2, .num 3, .num 4, .num 5])])
        (.appendOrTruncate [.str "requests"] (some (.arr [.num 6, .num 7])) (some 0)) =
      modifyAtPath
        (.obj [("requests", .arr [.num 1, .num 2, .num 3, .num 4, .num 5])])
        [.str "requests"]
        (fun _ => .arr (([.num 1, .num 2, .num 3, .num 4, .num 5] :
            List JVal).take (Int.toNat 0) ++ [.num 6, .num 7])) ∧
    applyMutation
        (.obj [("requests", .arr [.num 1, .num 2, .num 3, .num 4, .num 5])])
        (.appendOrTruncate [.str "requests"] (some (.arr [.num 6, .num 7])) (some 0)) =
      .obj [("requests", .arr [.num 6, .num 7])] :=
  ⟨by simp, by decide, rfl,
   claim4_truncate_then_append _ [.str "requests"] _ [.num 6, .num 7] 0
     (by simp) (by decide) rfl,
   rfl⟩

/-! ## Claim C5 — a later Snapshot replaces, never merges -/

/-- C5: a Snapshot mutation met after the first line, with an object
payload, fully replaces the working state's contents — the result is
exactly the payload object, and any key present before but absent from
the payload does not survive. -/
theorem claim5_snapshot_replaces (fs fv : List (String × JVal))
    (hnd : (fv.map Prod.fst).Nodup) :
    applyMutation (.obj fs) (.snapshot (.obj fv)) = .obj fv ∧
    ∀ key, key ∉ fv.map Prod.fst →
      getKey (applyMutation (.obj fs) (.snapshot (.obj fv))) (.str key) = none := by
  have h1 : applyMutation (.obj fs) (.snapshot (.obj fv)) = .obj fv := by
    simp only [applyMutation, isObjLike, if_true, clearAssign]
    exact congrArg JVal.obj (assignFields_eq_append fv [] (by simp) hnd)
  refine ⟨h1, ?_⟩
  intro key hkey
  rw [h1]
  simpa [getKey, keyToString] using lookupField_eq_none_of_not_mem fv key hkey

/-- C5 witness: a snapshot payload lacking key `"b"` wipes out the prior
binding of `"b"`. -/
theorem claim5_witness :
    ((([("c", JVal.num 3)]).map Prod.fst).Nodup) ∧
    applyMutation (.obj [("a", .num 1), ("b", .num 2)])
        (.snapshot (.obj [("c", .num 3)])) = .obj [("c", .num 3)] ∧
    getKey (applyMutation (.obj [("a", .num 1), ("b", .num 2)])
        (.snapshot (.obj [("c", .num 3)]))) (.str "b") = none :=
  ⟨by decide,
   (claim5_snapshot_replaces [("a", .num 1), ("b", .num 2)] [("c", .num 3)]
     (by decide)).1,
   (claim5_snapshot_replaces [("a", .num 1), ("b", .num 2)] [("c", .num 3)]
     (by decide)).2 "b" (by decide)⟩

/-! ## Claim C7 — sandboxed read-only queries -/

/-- C7: `queryReadOnly` rejects, before any execution, every statement not
beginning with a select-family keyword and every statement containing the
recursive-query keyword; an accepted statement is wrapped as an inner
subquery under an outer limit of one above the cap (cap = 500), and the
result holds at most the cap's worth of rows with `truncated` true exactly
when the inner result set exceeded the cap. -/
theorem claim7_queryReadOnly {α : Type} (sql : String) (fullRows : List α) :
    (selectFamilyOk (jsTrim sql) = false →
      queryReadOnly sql fullRows = .error "Only SELECT statements are allowed") ∧
    (selectFamilyOk (jsTrim sql) = true →
      containsWordCI (jsTrim sql) "recursive" = true →
      queryReadOnly sql fullRows = .error "Recursive CTEs are not supported") ∧
    (selectFamilyOk (jsTrim sql) = true →
      containsWordCI (jsTrim sql) "recursive" = false →
      limitedSql sql = "SELECT * FROM (" ++ jsTrim sql ++ ") LIMIT 501" ∧
      queryReadOnly sql fullRows =
        .ok (fullRows.take MAX_QUERY_ROWS,
             decide (fullRows.length > MAX_QUERY_ROWS))) := by
  refine ⟨?_, ?_, ?_⟩
  · intro h
    simp [queryReadOnly, h]
  · intro h1 h2
    simp [queryReadOnly, h1, h2]
  · intro h1 h2
    constructor
    · unfold limitedSql
      rw [String.append_assoc]
      congr 1
    · unfold queryReadOnly
      rw [if_neg (by simp [h1]), if_neg (by simp [h2])]
      have hc := cap_take_spec fullRows MAX_QUERY_ROWS
      dsimp only
      rw [hc.1, hc.2]

/-- C7 witness: a `DELETE` is rejected before execution, a recursive CTE
is rejected, and a plain `SELECT` over 501 underlying rows comes back
capped at 500 rows with the truncation flag set. -/
theorem claim7_witness :
    queryReadOnly "DELETE FROM sessions" ([] : List Nat) =
      .error "Only SELECT statements are allowed" ∧
    queryReadOnly "WITH RECURSIVE t AS (SELECT 1) SELECT * FROM t" ([] : List Nat) =
      .error "Recursive CTEs are not supported" ∧
    queryReadOnly "SELECT * FROM sessions" (List.replicate 501 (0 : Nat)) =
      .ok (List.replicate 500 (0 : Nat), true) := by
  refine ⟨(claim7_queryReadOnly _ _).1 (by decide),
          (claim7_queryReadOnly _ _).2.1 (by decide) (by decide), ?_⟩
  have h := ((claim7_queryReadOnly "SELECT * FROM sessions"
      (List.replicate 501 (0 : Nat))).2.2 (by decide) (by decide)).2
  rw [h]
  have e1 : (List.replicate 501 (0 : Nat)).take MAX_QUERY_ROWS =
      List.replicate 500 (0 : Nat) := by
    rw [List.take_replicate]
    congr 1
  have e2 : decide ((List.replicate 501 (0 : Nat)).length > MAX_QUERY_ROWS) = true := by
    apply decide_eq_true
    rw [List.length_replicate]
    decide
  rw [e1, e2]

/-! ## Claim C8 — full-text search expression construction -/

theorem stripLeadingOps_eq_dropWhile (ts : List String) :
    stripLeadingOps ts = ts.dropWhile (fun t => isFtsOp t) := by
  induction ts with
  | nil => rfl
  | cons t rest ih =>
    by_cases h : isFtsOp t
    · simp [stripLeadingOps, List.dropWhile, h, ih]
    · simp [stripLeadingOps, List.dropWhile, h]

theorem mapToken_ne_empty (t : String) : mapToken t ≠ "" := by
  unfold mapToken
  by_cases h : isFtsOp (asciiUpper t) = true
  · have hor : asciiUpper t = "OR" ∨ asciiUpper t = "NOT" ∨ asciiUpper t = "AND" := by
      simpa [isFtsOp, FTS_OPERATORS, List.contains] using h
    rw [if_pos h]
    rcases hor with h1 | h1 | h1 <;> rw [h1] <;> decide
  · rw [if_neg h]
    intro hcontra
    have hlen := congrArg String.length hcontra
    rw [String.length_append, String.length_append] at hlen
    have e1 : ("\"" : String).length = 1 := rfl
    have e2 : ("\"*" : String).length = 2 := rfl
    have e3 : ("" : String).length = 0 := rfl
    omega

theorem joinSpace_ne_empty (ts : List String) (hne : ts ≠ [])
    (h : ∀ t ∈ ts, t ≠ "") : joinSpace ts ≠ "" := by
  cases ts with
  | nil => exact absurd rfl hne
  | cons t rest =>
    cases rest with
    | nil => exact h t (by simp)
    | cons u rest2 =>
      intro hcontra
      have hlen := congrArg String.length hcontra
      simp only [joinSpace, String.length_append] at hlen
      have e1 : (" " : String).length = 1 := rfl
      have e2 : ("" : String).length = 0 := rfl
      omega

/-- C8: the full-text expression is built by splitting the trimmed query
on whitespace, upper-casing operator-keyword tokens, double-quoting (with
doubled embedded quotes) and star-suffixing every other token, then
stripping leading and trailing bare operators; an empty resulting
expression — in particular a bare `"OR"` query — yields an empty result
list without touching the database. -/
theorem claim8_search_expression {α : Type} (query : String) (exec : String → List α) :
    (search query exec =
      (if jsTrim query = "" then []
       else
         if ((((splitWs (jsTrim query)).map mapToken).dropWhile
              (fun t => isFtsOp t)).reverse.dropWhile (fun t => isFtsOp t)).reverse = []
         then []
         else exec (joinSpace
           (((((splitWs (jsTrim query)).map mapToken).dropWhile
              (fun t => isFtsOp t)).reverse.dropWhile (fun t => isFtsOp t)).reverse)))) ∧
    search "OR" exec = [] := by
  constructor
  · unfold search buildFtsExpr
    by_cases h0 : jsTrim query = ""
    · simp [h0]
    · simp only [h0, if_false]
      rw [stripTrailingOps, stripLeadingOps_eq_dropWhile, stripLeadingOps_eq_dropWhile]
      set stripped :=
        ((((splitWs (jsTrim query)).map mapToken).dropWhile
          (fun t => isFtsOp t)).reverse.dropWhile (fun t => isFtsOp t)).reverse with hs
      by_cases hempty : stripped = []
      · simp [hempty, joinSpace]
      · have hmem : ∀ t ∈ stripped, t ≠ "" := by
          intro t htm
          have h1 : t ∈ ((splitWs (jsTrim query)).map mapToken) := by
            rw [hs] at htm
            rw [List.mem_reverse] at htm
            have h2 := (List.dropWhile_sublist
              (l := (((splitWs (jsTrim query)).map mapToken).dropWhile
                (fun t => isFtsOp t)).reverse) (p := fun t => isFtsOp t)).subset htm
            rw [List.mem_reverse] at h2
            exact (List.dropWhile_sublist
              (l := (splitWs (jsTrim query)).map mapToken)
              (p := fun t => isFtsOp t)).subset h2
          rcases List.mem_map.1 h1 with ⟨orig, _, rfl⟩
          exact mapToken_ne_empty orig
        have hjoin := joinSpace_ne_empty stripped hempty hmem
        simp [hempty, hjoin]
  · have hb : buildFtsExpr "OR" = none := by decide
    simp [search, hb]

/-! ## Claim C9 — overlapping reindex calls coalesce -/

theorem rrun_calls_only (L : List REv) (hL : ∀ e ∈ L, e = REv.call)
    (s : RState) (r : Nat) (hin : s.inFlight = some r) :
    (rrun s L).started = s.started ∧ (rrun s L).inFlight = some r ∧
      (rrun s L).joined = s.joined ++ List.replicate L.length r := by
  induction L generalizing s with
  | nil => exact ⟨rfl, hin, by simp [rrun]⟩
  | cons e rest ih =>
    have he : e = REv.call := hL e (by simp)
    subst he
    have hstep : rstep s .call = { s with joined := s.joined ++ [r] } := by
      simp [rstep, hin]
    have hrest : ∀ e ∈ rest, e = REv.call := fun e h => hL e (by simp [h])
    have hrec := ih hrest { s with joined := s.joined ++ [r] } hin
    have hfold : rrun s (REv.call :: rest) = rrun { s with joined := s.joined ++ [r] } rest := by
      simp [rrun, List.foldl, hstep]
    rw [hfold]
    refine ⟨hrec.1, hrec.2.1, ?_⟩
    rw [hrec.2.2]
    simp [List.replicate_succ, List.append_assoc]

/-- C9: a `reindex()` call arriving while another is in flight starts no
new structural pass and resolves with the in-flight run's outcome: over
any burst of overlapping calls, exactly one pass executes and every caller
joins run 0 (hence all resolve with the same `{indexed, skipped, pruned}`
result). -/
theorem claim9_reindex_coalesces (L : List REv) (hL : ∀ e ∈ L, e = REv.call) :
    (rrun initR (REv.call :: (L ++ [REv.call]))).started = 1 ∧
    ∀ r ∈ (rrun initR (REv.call :: (L ++ [REv.call]))).joined, r = 0 := by
  have h0 : rstep initR .call =
      { inFlight := some 0, nextRun := 1, started := 1, joined := [0] } := rfl
  have hfold : rrun initR (REv.call :: (L ++ [REv.call])) =
      rstep (rrun { inFlight := some 0, nextRun := 1, started := 1, joined := [0] } L)
        .call := by
    simp [rrun, List.foldl, h0, List.foldl_append]
  have hmid := rrun_calls_only L hL
    { inFlight := some 0, nextRun := 1, started := 1, joined := [0] } 0 rfl
  set s1 := rrun { inFlight := some 0, nextRun := 1, started := 1, joined := [0] } L
    with hs1
  rw [hfold]
  have hstep : rstep s1 .call = { s1 with joined := s1.joined ++ [0] } := by
    simp [rstep, hmid.2.1]
  rw [hstep]
  refine ⟨hmid.1, ?_⟩
  intro r hr
  simp only [List.mem_append, hmid.2.2] at hr
  rcases hr with (hr | hr) | hr
  · simpa using hr
  · exact List.eq_of_mem_replicate hr
  · simpa using hr

/-- C9 witness: two back-to-back calls with no settle in between — one
pass started, both callers joined run 0. -/
theorem claim9_witness :
    (∀ e ∈ ([] : List REv), e = REv.call) ∧
    ((rrun initR (REv.call :: (([] : List REv) ++ [REv.call]))).started = 1 ∧
      ∀ r ∈ (rrun initR (REv.call :: (([] : List REv) ++ [REv.call]))).joined, r = 0) :=
  ⟨by simp, claim9_reindex_coalesces [] (by simp)⟩

/-! ## Claim C6 — each per-session write is one all-or-nothing transaction -/

theorem insertTurnsLoop_ok_noFail (data : SessionDataL) (oracle : Nat → Bool)
    (reqs : List RequestL) :
    ∀ step i db db' step',
      insertTurnsLoop oracle data step i db reqs = .ok (db', step') →
      insertTurnsLoop noFail data step i db reqs = .ok (db', step') := by
  induction reqs with
  | nil =>
    intro step i db db' step' h
    simpa [insertTurnsLoop, noFail] using h
  | cons req rest ih =>
    intro step i db db' step' h
    rw [insertTurnsLoop] at h
    rw [insertTurnsLoop]
    simp only [noFail, Bool.false_eq_true, if_false]
    by_cases h0 : oracle step = true
    · rw [if_pos h0] at h
      exact absurd h (by simp)
    · rw [if_neg h0] at h
      by_cases hann : (mkTurnData data i req).2.length > 0
      · rw [if_pos hann] at h
        rw [if_pos hann]
        by_cases h1 : oracle (step + 1) = true
        · rw [if_pos h1] at h
          exact absurd h (by simp)
        · rw [if_neg h1] at h
          exact ih _ _ _ _ _ h
      · rw [if_neg hann] at h
        rw [if_neg hann]
        exact ih _ _ _ _ _ h

theorem txBody_ok_noFail (db : DBState) (summary : SessionSummary)
    (data : SessionDataL) (mtime : Int) (oracle : Nat → Bool)
    (reqs : List RequestL) (p : DBState)
    (h : txBody db summary data mtime oracle reqs = .ok p) :
    txBody db summary data mtime noFail reqs = .ok p := by
  rw [txBody] at h
  rw [txBody]
  simp only [noFail, Bool.false_eq_true, if_false]
  by_cases h1 : oracle 1 = true
  · rw [if_pos h1] at h
    exact absurd h (by simp)
  · rw [if_neg h1] at h
    by_cases h2 : oracle 2 = true
    · rw [if_pos h2] at h
      exact absurd h (by simp)
    · rw [if_neg h2] at h
      by_cases h3 : oracle 3 = true
      · rw [if_pos h3] at h
        exact absurd h (by simp)
      · rw [if_neg h3] at h
        cases hloop : insertTurnsLoop oracle data 4 0
            (deleteTurnsForSession
              (upsertSessionDB
                (deleteSessionsByFilePath db summary.filePath (some data.sessionId))
                summary mtime)
              data.sessionId) reqs with
        | error e => simp [hloop] at h
        | ok r =>
          obtain ⟨db', step'⟩ := r
          simp only [hloop] at h
          rw [insertTurnsLoop_ok_noFail data oracle reqs _ _ _ _ _ hloop]
          by_cases hc : oracle step' = true
          · rw [if_pos hc] at h
            exact absurd h (by simp)
          · rw [if_neg hc] at h
            exact h

/-- C6: the per-session write (delete stale rows by path, upsert session,
delete old turns, insert turns and annotations, commit) is atomic: for
any injected failure point the persisted store is either the
pre-transaction state (failure reported) or exactly the full-success
state — never anything in between; and a session whose write fails leaves
the store untouched and the batch continues with the next entry,
contributing nothing to the `indexed` count. -/
theorem claim6_session_write_atomic (db : DBState) (s : SessionSummary)
    (d : SessionDataL) (m : Int) (oracle : Nat → Bool) (acc : Nat)
    (rest : List (Option (SessionSummary × SessionDataL × Int)))
    (oracles : Nat → Nat → Bool) (j : Nat) :
    ((indexSession db s d m oracle).2 =
      if (indexSession db s d m oracle).1 = true
      then (indexSession db s d m noFail).2 else db) ∧
    ((indexSession db s d m (oracles j)).1 = false →
      writeBatch db acc (some (s, d, m) :: rest) oracles j =
        writeBatch db acc rest oracles (j + 1)) := by
  have key : ∀ orc : Nat → Bool,
      (indexSession db s d m orc).2 =
        if (indexSession db s d m orc).1 = true
        then (indexSession db s d m noFail).2 else db := by
    intro orc
    cases hreq : d.requests with
    | none => simp [indexSession, hreq]
    | some reqs =>
      by_cases h0 : orc 0 = true
      · simp [indexSession, hreq, h0]
      · cases htx : txBody db s d m orc reqs with
        | ok p =>
          have hnf := txBody_ok_noFail db s d m orc reqs p htx
          simp [indexSession, hreq, h0, htx, noFail, hnf]
        | error e =>
          simp [indexSession, hreq, h0, htx]
  refine ⟨key oracle, ?_⟩
  intro hfail
  have hdb := key (oracles j)
  rw [hfail] at hdb
  simp only [Bool.false_eq_true, if_false] at hdb
  simp only [writeBatch, hfail, hdb, Bool.false_eq_true, if_false, Nat.add_zero]

/-- C6 witness: a write that fails at `BEGIN` (step 0) reports failure,
leaves the store unchanged, and the batch result equals the batch run
without that entry. -/
theorem claim6_witness :
    (indexSession ⟨[], [], [], 0, 0⟩
        ⟨"s", "/f", none, 0, 0, none, [], [], 0, false, 0, "workspace", ""⟩
        ⟨"s", 0, some []⟩ 0 (fun _ => true)).1 = false ∧
    (indexSession ⟨[], [], [], 0, 0⟩
        ⟨"s", "/f", none, 0, 0, none, [], [], 0, false, 0, "workspace", ""⟩
        ⟨"s", 0, some []⟩ 0 (fun _ => true)).2 =
      (if (indexSession ⟨[], [], [], 0, 0⟩
          ⟨"s", "/f", none, 0, 0, none, [], [], 0, false, 0, "workspace", ""⟩
          ⟨"s", 0, some []⟩ 0 (fun _ => true)).1 = true
       then (indexSession ⟨[], [], [], 0, 0⟩
          ⟨"s", "/f", none, 0, 0, none, [], [], 0, false, 0, "workspace", ""⟩
          ⟨"s", 0, some []⟩ 0 noFail).2
       else ⟨[], [], [], 0, 0⟩) ∧
    writeBatch ⟨[], [], [], 0, 0⟩ 0
        [some (⟨"s", "/f", none, 0, 0, none, [], [], 0, false, 0, "workspace", ""⟩,
          ⟨"s", 0, some []⟩, 0)] (fun _ _ => true) 0 =
      writeBatch ⟨[], [], [], 0, 0⟩ 0 [] (fun _ _ => true) 1 :=
  ⟨rfl,
   (claim6_session_write_atomic ⟨[], [], [], 0, 0⟩
     ⟨"s", "/f", none, 0, 0, none, [], [], 0, false, 0, "workspace", ""⟩
     ⟨"s", 0, some []⟩ 0 (fun _ => true) 0 [] (fun _ _ => true) 0).1,
   (claim6_session_write_atomic ⟨[], [], [], 0, 0⟩
     ⟨"s", "/f", none, 0, 0, none, [], [], 0, false, 0, "workspace", ""⟩
     ⟨"s", 0, some []⟩ 0 (fun _ => true) 0 [] (fun _ _ => true) 0).2 rfl⟩

/-! ## Claim C2 — re-indexing replaces a session's turns exactly -/

theorem addAnnotsDB_turns (anns : List Annot) :
    ∀ (db : DBState) (tid : Nat), (addAnnotsDB db tid anns).turns = db.turns := by
  induction anns with
  | nil => intro db tid; rfl
  | cons a rest ih => intro db tid; exact ih _ _

theorem upsertTurnDB_no_conflict (db : DBState) (t : TurnInput)
    (h : db.turns.any (turnConflicts t) = false) :
    ∃ rec : TurnRec, (upsertTurnDB db t).1.turns = db.turns ++ [rec] ∧
      rec.session_id = t.sessionId ∧ rec.turn_index = t.turnIndex := by
  refine
    ⟨{ id := db.nextTurnId, session_id := t.sessionId, turn_index := t.turnIndex,
       prompt_text := t.promptText, response_text := t.responseText, agent := t.agent,
       model := t.model, timestamp := t.timestamp, duration_ms := t.durationMs,
       token_total := t.tokenTotal, token_prompt := t.tokenPrompt,
       token_completion := t.tokenCompletion, vote := t.vote }, ?_, rfl, rfl⟩
  simp only [upsertTurnDB, h, Bool.false_eq_true, if_false]

theorem filter_ne_then_eq_nil (l : List TurnRec) (sid : String) :
    ((l.filter (fun t => t.session_id ≠ sid)).filter
      (fun t => t.session_id == sid)) = [] := by
  induction l with
  | nil => rfl
  | cons t rest ih =>
    by_cases h : t.session_id = sid <;> simp [h, ih]

theorem insertTurnsLoop_noFail_spec (data : SessionDataL) (reqs : List RequestL) :
    ∀ (i step : Nat) (db : DBState),
      (∀ t ∈ db.turns, t.session_id = data.sessionId → t.turn_index < i) →
      ∃ db' step',
        insertTurnsLoop noFail data step i db reqs = .ok (db', step') ∧
        (db'.turns.filter (fun t => t.session_id == data.sessionId)).map
            (fun t => t.turn_index) =
          (db.turns.filter (fun t => t.session_id == data.sessionId)).map
            (fun t => t.turn_index) ++ List.range' i reqs.length ∧
        ((db.turns.map (fun t => (t.session_id, t.turn_index))).Nodup →
          (db'.turns.map (fun t => (t.session_id, t.turn_index))).Nodup) := by
  induction reqs with
  | nil =>
    intro i step db hinv
    exact ⟨db, step, rfl, by simp, id⟩
  | cons req rest ih =>
    intro i step db hinv
    have hconf : db.turns.any (turnConflicts (mkTurnData data i req).1) = false := by
      rw [List.any_eq_false]
      intro t ht
      simp only [turnConflicts, Bool.and_eq_true, decide_eq_true_eq, not_and]
      intro hsid
      have hlt := hinv t ht hsid
      rw [show (mkTurnData data i req).1.turnIndex = i from rfl]
      omega
    obtain ⟨rec, hrec, hrs, hri⟩ :=
      upsertTurnDB_no_conflict db (mkTurnData data i req).1 hconf
    have hrs' : rec.session_id = data.sessionId := hrs
    have hri' : rec.turn_index = i := hri
    -- the state handed to the recursive call has turns `db.turns ++ [rec]`
    -- in both the with-annotations and without-annotations branches
    have hinv2 : ∀ t ∈ db.turns ++ [rec],
        t.session_id = data.sessionId → t.turn_index < i + 1 := by
      intro t ht hsid
      rcases List.mem_append.1 ht with h1 | h1
      · have := hinv t h1 hsid
        omega
      · simp only [List.mem_singleton] at h1
        subst h1
        omega
    -- common facts about the one-step-extended table
    have hkey : ((db.turns ++ [rec]).filter (fun t => t.session_id == data.sessionId)).map
        (fun t => t.turn_index) =
        (db.turns.filter (fun t => t.session_id == data.sessionId)).map
          (fun t => t.turn_index) ++ [i] := by
      rw [List.filter_append, List.map_append]
      congr 1
      simp [hrs', hri']
    have hnd2 : (db.turns.map (fun t => (t.session_id, t.turn_index))).Nodup →
        ((db.turns ++ [rec]).map (fun t => (t.session_id, t.turn_index))).Nodup := by
      intro hnd
      rw [List.map_append]
      apply List.Nodup.append hnd (by simp)
      intro p hp hp2
      simp only [List.map_cons, List.map_nil, List.mem_singleton] at hp2
      rcases List.mem_map.1 hp with ⟨t, ht, hteq⟩
      rw [hp2, hrs', hri'] at hteq
      have h1 : t.session_id = data.sessionId := congrArg Prod.fst hteq
      have h2 : t.turn_index = i := congrArg Prod.snd hteq
      have := hinv t ht h1
      omega
    by_cases hann : (mkTurnData data i req).2.length > 0
    · have hturns2 :
          (addAnnotsDB (upsertTurnDB db (mkTurnData data i req).1).1
            (upsertTurnDB db (mkTurnData data i req).1).2
            (mkTurnData data i req).2).turns = db.turns ++ [rec] := by
        rw [addAnnotsDB_turns]
        exact hrec
      obtain ⟨db', step', hloop, hfil, hnodup⟩ :=
        ih (i + 1) (step + 2)
          (addAnnotsDB (upsertTurnDB db (mkTurnData data i req).1).1
            (upsertTurnDB db (mkTurnData data i req).1).2
            (mkTurnData data i req).2)
          (by rw [hturns2]; exact hinv2)
      refine ⟨db', step', ?_, ?_, ?_⟩
      · rw [insertTurnsLoop]
        simp only [noFail, Bool.false_eq_true, if_false]
        rw [if_pos hann]
        exact hloop
      · rw [hfil, hturns2, hkey, List.append_assoc]
        congr 1
      · intro hnd
        apply hnodup
        rw [hturns2]
        exact hnd2 hnd
    · have hturns2 : (upsertTurnDB db (mkTurnData data i req).1).1.turns =
          db.turns ++ [rec] := hrec
      obtain ⟨db', step', hloop, hfil, hnodup⟩ :=
        ih (i + 1) (step + 1) (upsertTurnDB db (mkTurnData data i req).1).1
          (by rw [hturns2]; exact hinv2)
      refine ⟨db', step', ?_, ?_, ?_⟩
      · rw [insertTurnsLoop]
        simp only [noFail, Bool.false_eq_true, if_false]
        rw [if_neg hann]
        exact hloop
      · rw [hfil, hturns2, hkey, List.append_assoc]
        congr 1
      · intro hnd
        apply hnodup
        rw [hturns2]
        exact hnd2 hnd

/-- C2: re-indexing a session whose replayed state has `n` requests leaves
exactly the turn rows `0..n-1` for that `sessionId` (no residual turn at
any index ≥ `n` survives from a previous longer version), the write
succeeds, and the `(sessionId, turnIndex)` uniqueness invariant is
preserved. -/
theorem claim2_turns_replaced (db : DBState) (summary : SessionSummary)
    (d : SessionDataL) (m : Int) (reqs : List RequestL)
    (hreq : d.requests = some reqs)
    (hnd : (db.turns.map (fun t => (t.session_id, t.turn_index))).Nodup) :
    (indexSession db summary d m noFail).1 = true ∧
    (((indexSession db summary d m noFail).2.turns.filter
        (fun t => t.session_id == d.sessionId)).map (fun t => t.turn_index)) =
      List.range reqs.length ∧
    ((indexSession db summary d m noFail).2.turns.map
      (fun t => (t.session_id, t.turn_index))).Nodup := by
  have hp3turns :
      (deleteTurnsForSession
        (upsertSessionDB
          (deleteSessionsByFilePath db summary.filePath (some d.sessionId))
          summary m)
        d.sessionId).turns =
      ((deleteSessionsByFilePath db summary.filePath (some d.sessionId)).turns.filter
        (fun t => t.session_id ≠ d.sessionId)) := rfl
  set p3 := deleteTurnsForSession
    (upsertSessionDB
      (deleteSessionsByFilePath db summary.filePath (some d.sessionId))
      summary m)
    d.sessionId with hp3
  have hinv0 : ∀ t ∈ p3.turns, t.session_id = d.sessionId → t.turn_index < 0 := by
    intro t ht hsid
    rw [hp3turns] at ht
    have := List.of_mem_filter ht
    simp [hsid] at this
  have hsub : p3.turns.Sublist db.turns := by
    rw [hp3turns]
    exact (List.filter_sublist _).trans (List.filter_sublist _)
  have hndp3 : (p3.turns.map (fun t => (t.session_id, t.turn_index))).Nodup :=
    List.Nodup.sublist (List.Sublist.map _ hsub) hnd
  obtain ⟨db', step', hloop, hfil, hnodup⟩ :=
    insertTurnsLoop_noFail_spec d reqs 0 4 p3 hinv0
  have hrun : indexSession db summary d m noFail = (true, db') := by
    simp only [indexSession, hreq, noFail, Bool.false_eq_true, if_false]
    simp only [txBody, noFail, Bool.false_eq_true, if_false]
    rw [← hp3, hloop]
  rw [hrun]
  have hz : ((p3.turns.filter (fun t => t.session_id == d.sessionId)).map
      (fun t => t.turn_index)) = [] := by
    rw [hp3turns, filter_ne_then_eq_nil]
    rfl
  refine ⟨rfl, ?_, hnodup hndp3⟩
  rw [hfil, hz, List.nil_append]
  exact (List.range_eq_range' reqs.length).symm

/-- C2 witness: a store holding five turns for session `"s"` (indices
0–4) and one turn for `"t"`, re-indexed with a log replaying to two
requests — exactly indices 0 and 1 remain for `"s"`, uniqueness intact. -/
theorem claim2_witness :
    ((⟨"s", 0, some [⟨none, none, none, none, none, none, none, none, none,
        none, none, none⟩,
      ⟨none, none, none, none, none, none, none, none, none, none, none,
        none⟩]⟩ : SessionDataL).requests =
      some [⟨none, none, none, none, none, none, none, none, none, none, none,
        none⟩,
      ⟨none, none, none, none, none, none, none, none, none, none, none,
        none⟩]) ∧
    (((⟨[], [⟨0, "s", 0, "", "", "", "", 0, 0, 0, 0, 0, none⟩,
        ⟨1, "s", 1, "", "", "", "", 0, 0, 0, 0, 0, none⟩,
        ⟨2, "s", 2, "", "", "", "", 0, 0, 0, 0, 0, none⟩,
        ⟨3, "s", 3, "", "", "", "", 0, 0, 0, 0, 0, none⟩,
        ⟨4, "s", 4, "", "", "", "", 0, 0, 0, 0, 0, none⟩,
        ⟨5, "t", 0, "", "", "", "", 0, 0, 0, 0, 0, none⟩], [], 6, 0⟩ :
        DBState).turns.map (fun t => (t.session_id, t.turn_index))).Nodup) ∧
    ((indexSession
        ⟨[], [⟨0, "s", 0, "", "", "", "", 0, 0, 0, 0, 0, none⟩,
          ⟨1, "s", 1, "", "", "", "", 0, 0, 0, 0, 0, none⟩,
          ⟨2, "s", 2, "", "", "", "", 0, 0, 0, 0, 0, none⟩,
          ⟨3, "s", 3, "", "", "", "", 0, 0, 0, 0, 0, none⟩,
          ⟨4, "s", 4, "", "", "", "", 0, 0, 0, 0, 0, none⟩,
          ⟨5, "t", 0, "", "", "", "", 0, 0, 0, 0, 0, none⟩], [], 6, 0⟩
        ⟨"s", "/f", none, 0, 2, none, [], [], 0, false, 0, "workspace", ""⟩
        ⟨"s", 0, some [⟨none, none, none, none, none, none, none, none, none,
            none, none, none⟩,
          ⟨none, none, none, none, none, none, none, none, none, none, none,
            none⟩]⟩ 0 noFail).1 = true ∧
      (((indexSession
        ⟨[], [⟨0, "s", 0, "", "", "", "", 0, 0, 0, 0, 0, none⟩,
          ⟨1, "s", 1, "", "", "", "", 0, 0, 0, 0, 0, none⟩,
          ⟨2, "s", 2, "", "", "", "", 0, 0, 0, 0, 0, none⟩,
          ⟨3, "s", 3, "", "", "", "", 0, 0, 0, 0, 0, none⟩,
          ⟨4, "s", 4, "", "", "", "", 0, 0, 0, 0, 0, none⟩,
          ⟨5, "t", 0, "", "", "", "", 0, 0, 0, 0, 0, none⟩], [], 6, 0⟩
        ⟨"s", "/f", none, 0, 2, none, [], [], 0, false, 0, "workspace", ""⟩
        ⟨"s", 0, some [⟨none, none, none, none, none, none, none, none, none,
            none, none, none⟩,
          ⟨none, none, none, none, none, none, none, none, none, none, none,
            none⟩]⟩ 0 noFail).2.turns.filter
          (fun t => t.session_id == "s")).map (fun t => t.turn_index)) =
        List.range 2 ∧
      ((indexSession
        ⟨[], [⟨0, "s", 0, "", "", "", "", 0, 0, 0, 0, 0, none⟩,
          ⟨1, "s", 1, "", "", "", "", 0, 0, 0, 0, 0, none⟩,
          ⟨2, "s", 2, "", "", "", "", 0, 0, 0, 0, 0, none⟩,
          ⟨3, "s", 3, "", "", "", "", 0, 0, 0, 0, 0, none⟩,
          ⟨4, "s", 4, "", "", "", "", 0, 0, 0, 0, 0, none⟩,
          ⟨5, "t", 0, "", "", "", "", 0, 0, 0, 0, 0, none⟩], [], 6, 0⟩
        ⟨"s", "/f", none, 0, 2, none, [], [], 0, false, 0, "workspace", ""⟩
        ⟨"s", 0, some [⟨none, none, none, none, none, none, none, none, none,
            none, none, none⟩,
          ⟨none, none, none, none, none, none, none, none, none, none, none,
            none⟩]⟩ 0 noFail).2.turns.map
        (fun t => (t.session_id, t.turn_index))).Nodup) :=
  ⟨rfl, by decide,
   claim2_turns_replaced
     ⟨[], [⟨0, "s", 0, "", "", "", "", 0, 0, 0, 0, 0, none⟩,
       ⟨1, "s", 1, "", "", "", "", 0, 0, 0, 0, 0, none⟩,
       ⟨2, "s", 2, "", "", "", "", 0, 0, 0, 0, 0, none⟩,
       ⟨3, "s", 3, "", "", "", "", 0, 0, 0, 0, 0, none⟩,
       ⟨4, "s", 4, "", "", "", "", 0, 0, 0, 0, 0, none⟩,
       ⟨5, "t", 0, "", "", "", "", 0, 0, 0, 0, 0, none⟩], [], 6, 0⟩
     ⟨"s", "/f", none, 0, 2, none, [], [], 0, false, 0, "workspace", ""⟩
     ⟨"s", 0, some [⟨none, none, none, none, none, none, none, none, none,
         none, none, none⟩,
       ⟨none, none, none, none, none, none, none, none, none, none, none,
         none⟩]⟩ 0
     [⟨none, none, none, none, none, none, none, none, none, none, none,
        none⟩,
      ⟨none, none, none, none, none, none, none, none, none, none, none,
        none⟩]
     rfl (by decide)⟩

/-! ## Claim C10 — session summary round-trip through the store -/

theorem splitCommaGo_no_comma (l : List Char) :
    ∀ (acc cs : List Char), (∀ c ∈ l, c ≠ ',') →
      splitCommaGo acc (l ++ cs) = splitCommaGo (l.reverse ++ acc) cs := by
  induction l with
  | nil => intro acc cs _; simp
  | cons c l' ih =>
    intro acc cs h
    have hc : c ≠ ',' := h c (by simp)
    have h' : ∀ c ∈ l', c ≠ ',' := fun x hx => h x (by simp [hx])
    rw [List.cons_append]
    rw [splitCommaGo, if_neg hc, ih (c :: acc) cs h']
    simp

theorem str_length_pos (x : String) (h : x ≠ "") : 0 < x.length := by
  cases x with
  | mk d =>
    cases d with
    | nil => exact absurd rfl h
    | cons c cs => simp [String.length]

theorem joinStrings_comma_ne_empty (xs : List String) (hne : xs ≠ [])
    (h : ∀ x ∈ xs, x ≠ "") : joinStrings "," xs ≠ "" := by
  cases xs with
  | nil => exact absurd rfl hne
  | cons x rest =>
    cases rest with
    | nil => exact h x (by simp)
    | cons y rest2 =>
      intro hcontra
      have hlen := congrArg String.length hcontra
      have hj : joinStrings "," (x :: y :: rest2) =
          x ++ "," ++ joinStrings "," (y :: rest2) := rfl
      rw [hj] at hlen
      rw [String.length_append, String.length_append] at hlen
      have hx := str_length_pos x (h x (by simp))
      have e1 : ("," : String).length = 1 := rfl
      have e2 : ("" : String).length = 0 := rfl
      omega

theorem splitOnComma_joinStrings (xs : List String) :
    xs ≠ [] → (∀ x ∈ xs, ∀ c ∈ x.data, c ≠ ',') →
    splitOnComma (joinStrings "," xs) = xs := by
  induction xs with
  | nil => intro hne _; exact absurd rfl hne
  | cons x rest ih =>
    intro _ h
    have hx : ∀ c ∈ x.data, c ≠ ',' := h x (by simp)
    cases rest with
    | nil =>
      show splitCommaGo [] x.data = [x]
      have hgo := splitCommaGo_no_comma x.data [] [] hx
      rw [List.append_nil] at hgo
      rw [hgo, splitCommaGo]
      simp
    | cons y rest2 =>
      have hrest : ∀ x ∈ y :: rest2, ∀ c ∈ x.data, c ≠ ',' :=
        fun z hz => h z (by simp [hz])
      have hih := ih (by simp) hrest
      show splitCommaGo [] (joinStrings "," (x :: y :: rest2)).data = _
      have hdata : (joinStrings "," (x :: y :: rest2)).data =
          x.data ++ (',' :: (joinStrings "," (y :: rest2)).data) := by
        have hj : joinStrings "," (x :: y :: rest2) =
            x ++ "," ++ joinStrings "," (y :: rest2) := rfl
        rw [hj, String.data_append, String.data_append, List.append_assoc]
        rfl
      rw [hdata, splitCommaGo_no_comma x.data [] _ hx]
      rw [splitCommaGo, if_pos rfl]
      have hgo2 : splitCommaGo [] (joinStrings "," (y :: rest2)).data =
          y :: rest2 := hih
      rw [hgo2]
      simp

theorem mem_upsertSessionRows (tbl : List SessRow) (s : SessionSummary)
    (mtime : Int) : sessionRowOf s mtime ∈ upsertSessionRows tbl s mtime := by
  unfold upsertSessionRows
  by_cases h : tbl.any (fun r => r.session_id = s.sessionId) = true
  · rw [if_pos h]
    obtain ⟨r, hr, hp⟩ := List.any_eq_true.1 h
    refine List.mem_map.2 ⟨r, hr, ?_⟩
    rw [if_pos (by simpa using hp)]
  · rw [if_neg h]
    simp

theorem summaryOfRow_sessionRowOf (s : SessionSummary) (mtime : Int)
    (htitle : ∀ t, s.title = some t → t ≠ "")
    (hlast : ∀ t, s.lastMessage = some t → t ≠ "")
    (hm : ∀ x ∈ s.modelIds, x ≠ "" ∧ ∀ c ∈ x.data, c ≠ ',')
    (ha : ∀ x ∈ s.agents, x ≠ "" ∧ ∀ c ∈ x.data, c ≠ ',') :
    summaryOfRow (sessionRowOf s mtime) = s := by
  obtain ⟨sid, fp, title, cd, rc, lm, mids, ags, tt, hv, fsz, st, wp⟩ := s
  simp only [summaryOfRow, sessionRowOf]
  have hopt : ∀ (o : Option String), (∀ t, o = some t → t ≠ "") →
      strOrNull (strOrNull o) = o := by
    intro o ho
    cases o with
    | none => rfl
    | some t =>
      have ht : t ≠ "" := ho t rfl
      simp [strOrNull, ht]
  have hlist : ∀ l : List String, (∀ x ∈ l, x ≠ "" ∧ ∀ c ∈ x.data, c ≠ ',') →
      (if joinStrings "," l ≠ "" then splitOnComma (joinStrings "," l) else []) = l := by
    intro l hl
    cases l with
    | nil => simp [joinStrings]
    | cons x rest =>
      have hne : joinStrings "," (x :: rest) ≠ "" :=
        joinStrings_comma_ne_empty (x :: rest) (by simp) (fun z hz => (hl z hz).1)
      rw [if_pos hne]
      exact splitOnComma_joinStrings (x :: rest) (by simp) (fun z hz => (hl z hz).2)
  have hvotes : ∀ b : Bool, (decide ((if b then (1 : Int) else 0) = 1)) = b := by
    intro b
    cases b <;> decide
  congr 1
  · exact hopt title htitle
  · exact hopt lm hlast
  · exact hlist mids hm
  · exact hlist ags ha
  · exact hvotes hv

/-- C10: upserting a session summary whose title and last message are each
absent or non-empty and whose model/agent entries are non-empty and
comma-free, then listing with no filters, yields that summary back with
all thirteen fields intact. -/
theorem claim10_session_roundtrip (tbl : List SessRow) (s : SessionSummary)
    (mtime nowMs : Int)
    (htitle : ∀ t, s.title = some t → t ≠ "")
    (hlast : ∀ t, s.lastMessage = some t → t ≠ "")
    (hm : ∀ x ∈ s.modelIds, x ≠ "" ∧ ∀ c ∈ x.data, c ≠ ',')
    (ha : ∀ x ∈ s.agents, x ≠ "" ∧ ∀ c ∈ x.data, c ≠ ',') :
    s ∈ listSessions (upsertSessionRows tbl s mtime) {} nowMs := by
  have h1 : sessionRowOf s mtime ∈ upsertSessionRows tbl s mtime :=
    mem_upsertSessionRows tbl s mtime
  have h2 : summaryOfRow (sessionRowOf s mtime) = s :=
    summaryOfRow_sessionRowOf s mtime htitle hlast hm ha
  simp only [listSessions]
  refine List.mem_map.2 ⟨sessionRowOf s mtime, ?_, h2⟩
  exact ((List.perm_insertionSort _ _).mem_iff).2 h1

/-- C10 witness: a concrete summary with title, last message, two models
and one agent survives the upsert → list round-trip unchanged, in a table
already holding an unrelated session. -/
theorem claim10_witness :
    (∀ t, (⟨"sid", "/p", some "T", 5, 2, some "last", ["m1", "m2"], ["a1"], 7,
        true, 9, "workspace", "ws"⟩ : SessionSummary).title = some t → t ≠ "") ∧
    (⟨"sid", "/p", some "T", 5, 2, some "last", ["m1", "m2"], ["a1"], 7,
        true, 9, "workspace", "ws"⟩ : SessionSummary) ∈
      listSessions
        (upsertSessionRows
          [⟨"other", "/q", none, 1, 0, none, "", "", 0, 0, 0, "global", "", 3⟩]
          ⟨"sid", "/p", some "T", 5, 2, some "last", ["m1", "m2"], ["a1"], 7,
            true, 9, "workspace", "ws"⟩ 42)
        {} 0 :=
  ⟨fun t ht => by
    injection ht with h
    subst h
    decide,
   claim10_session_roundtrip
     [⟨"other", "/q", none, 1, 0, none, "", "", 0, 0, 0, "global", "", 3⟩]
     ⟨"sid", "/p", some "T", 5, 2, some "last", ["m1", "m2"], ["a1"], 7,
       true, 9, "workspace", "ws"⟩ 42 0
     (fun t ht => by
       injection ht with h
       subst h
       decide)
     (fun t ht => by
       injection ht with h
       subst h
       decide)
     (by decide) (by decide)⟩

end SessionTrace
